import Mathlib

/-!
Verification development for the catalog-resolution engine of `sar_coloc`
(`src/sar_coloc/tools.py`).

Modelling conventions, shared by all definitions below:

* Python strings are modelled as `List Char`; a concrete string literal `s`
  enters the development as `s.data`.  Python string comparison, slicing and
  splitting act on code points, which `List Char` reproduces exactly.
* `numpy.datetime64` instants are modelled as `Nat`: seconds since
  0001-01-01T00:00:00 of the proleptic Gregorian calendar (the calendar used
  by Python `datetime` and numpy).  All instants handled by the code come
  from 4-digit years, hence are nonnegative; comparison and
  `timedelta64` addition become `Nat` comparison and addition
  (1 day = 86400 s, 1 minute = 60 s).
* The Gregorian calendar conversions (`datetime.strptime` field validation,
  `strftime` on numpy days, `datetime64` casts to year/month/day units) are
  performed by the Python standard library / numpy, which are external
  collaborators of this repository.  They are modelled by the executable
  functions `toDays` / `fromDays` below; `fromDays` follows the divmod
  decomposition used by CPython `datetime._ord2ymd` (400/100/4/1-year
  cycles), proved correct and inverse to `toDays` in `fromDays_valid`.
* Python exceptions are modelled with `Except ToolsError`; the error
  constructors carry the spec's error taxonomy (`MalformedTimestamp`,
  `UnrecognizedConvention`, ...) for the `ValueError`s raised by the code,
  plus `indexError`/`keyError` for the corresponding Python exceptions.
* `glob.glob`, the HY2 netcdf time-coordinate reader and
  `xsar.raster_readers.resource_strftime` are external collaborators; the
  functions that call them take them as explicit oracle parameters.
* Longitude arrays (numpy float arrays) are modelled as `List Int`; on
  integer-valued inputs of moderate size every operation performed by
  `correct_dataset` (add 180, float `%` 360, subtract 180, compare, sort)
  is exact in IEEE double arithmetic, so the integer model reproduces the
  float computation exactly on such inputs.
-/

/-! ## Gregorian calendar model (collaborator: Python datetime / numpy) -/

/-- Gregorian leap-year test, as in Python `calendar.isleap`. -/
def isLeap (y : Nat) : Bool :=
  y % 4 == 0 && (y % 100 != 0 || y % 400 == 0)

/-- Days before month `m` (1-based) in a year whose leapness is `L`. -/
def daysBeforeMonthL (L : Bool) (m : Nat) : Nat :=
  (match m with
   | 1 => 0 | 2 => 31 | 3 => 59 | 4 => 90 | 5 => 120 | 6 => 151
   | 7 => 181 | 8 => 212 | 9 => 243 | 10 => 273 | 11 => 304 | _ => 334)
  + (if 2 < m && L then 1 else 0)

/-- Days before month `m` in year `y`. -/
def daysBeforeMonth (y m : Nat) : Nat := daysBeforeMonthL (isLeap y) m

/-- Length of month `m` in a year whose leapness is `L`. -/
def daysInMonthL (L : Bool) (m : Nat) : Nat :=
  match m with
  | 2 => if L then 29 else 28
  | 4 => 30 | 6 => 30 | 9 => 30 | 11 => 30
  | _ => 31

/-- Length of month `m` in year `y`. -/
def daysInMonth (y m : Nat) : Nat := daysInMonthL (isLeap y) m

/-- 0-based day ordinal of a Gregorian date: `toDays 1 1 1 = 0`,
matching `datetime.date(y, m, d).toordinal() - 1`. -/
def toDays (y m d : Nat) : Nat :=
  365 * (y - 1) + (y - 1) / 4 - (y - 1) / 100 + (y - 1) / 400
    + daysBeforeMonth y m + (d - 1)

/-- Month and day-of-month from a 0-based day-of-year `n0` of a year whose
leapness is `L` (cascade over the cumulative month table, as CPython
`datetime._ord2ymd` does after locating the year). -/
def monthFromDoy (L : Bool) (n0 : Nat) : Nat × Nat :=
  let l : Nat := if L then 1 else 0
  if n0 < 31 then (1, n0 + 1)
  else if n0 < 59 + l then (2, n0 - 30)
  else if n0 < 90 + l then (3, n0 - (58 + l))
  else if n0 < 120 + l then (4, n0 - (89 + l))
  else if n0 < 151 + l then (5, n0 - (119 + l))
  else if n0 < 181 + l then (6, n0 - (150 + l))
  else if n0 < 212 + l then (7, n0 - (180 + l))
  else if n0 < 243 + l then (8, n0 - (211 + l))
  else if n0 < 273 + l then (9, n0 - (242 + l))
  else if n0 < 304 + l then (10, n0 - (272 + l))
  else if n0 < 334 + l then (11, n0 - (303 + l))
  else (12, n0 - (333 + l))

/-- Inverse of `toDays`: `(year, month, day)` of a 0-based day ordinal,
by the 400/100/4/1-year divmod chain of CPython `datetime._ord2ymd`
(the two `= 4` quotients are the last-day-of-cycle corrections). -/
def fromDays (r : Nat) : Nat × Nat × Nat :=
  if r % 146097 % 36524 % 1461 / 365 = 4 ∨ r % 146097 / 36524 = 4 then
    (400 * (r / 146097) + 100 * (r % 146097 / 36524) + 4 * (r % 146097 % 36524 / 1461)
       + r % 146097 % 36524 % 1461 / 365, 12, 31)
  else
    (400 * (r / 146097) + 100 * (r % 146097 / 36524) + 4 * (r % 146097 % 36524 / 1461)
       + r % 146097 % 36524 % 1461 / 365 + 1,
     (monthFromDoy
        (isLeap (400 * (r / 146097) + 100 * (r % 146097 / 36524) + 4 * (r % 146097 % 36524 / 1461)
           + r % 146097 % 36524 % 1461 / 365 + 1))
        (r % 146097 % 36524 % 1461 % 365)).1,
     (monthFromDoy
        (isLeap (400 * (r / 146097) + 100 * (r % 146097 / 36524) + 4 * (r % 146097 % 36524 / 1461)
           + r % 146097 % 36524 % 1461 / 365 + 1))
        (r % 146097 % 36524 % 1461 % 365)).2)

/-! ## String utilities (Python `str` / `os.path` operations) -/

/-- Python `str.upper` restricted to ASCII (all catalog paths are ASCII). -/
def charUpper (c : Char) : Char :=
  if 'a' ≤ c ∧ c ≤ 'z' then Char.ofNat (c.toNat - 32) else c

/-- Uppercase a whole string. -/
def upperStr (s : List Char) : List Char := s.map charUpper

/-- Helper for `splitOnChar`; `acc` holds the current piece reversed. -/
def splitOnCharAux (sep : Char) : List Char → List Char → List (List Char)
  | [], acc => [acc.reverse]
  | c :: cs, acc =>
    if c = sep then acc.reverse :: splitOnCharAux sep cs []
    else splitOnCharAux sep cs (c :: acc)

/-- Python `s.split(sep)` for a single-character separator:
always returns at least one (possibly empty) piece. -/
def splitOnChar (sep : Char) (l : List Char) : List (List Char) :=
  splitOnCharAux sep l []

/-- Python `os.path.basename`: the part after the last `/`. -/
def baseName (p : List Char) : List Char := (splitOnChar '/' p).getLastD []

/-- Python `os.path.join` for relative, slash-free-boundary components, as
used by the catalog code: components joined with `/`. -/
def joinPath (parts : List (List Char)) : List Char := List.intercalate ['/'] parts

/-- Numeric value of a decimal digit character, `none` otherwise. -/
def digitVal (c : Char) : Option Nat :=
  if '0' ≤ c ∧ c ≤ '9' then some (c.toNat - 48) else none

/-- Helper for `digitsToNat`. -/
def digitsToNatAux : List Char → Nat → Option Nat
  | [], acc => some acc
  | c :: cs, acc =>
    match digitVal c with
    | some d => digitsToNatAux cs (acc * 10 + d)
    | none => none

/-- Decimal value of a nonempty all-digit string, `none` otherwise. -/
def digitsToNat (l : List Char) : Option Nat :=
  if l = [] then none else digitsToNatAux l 0

/-- Python `int(s)` on the optionally signed decimal strings that occur in
catalog filenames (`none` models the `ValueError` raised otherwise). -/
def parseInt (l : List Char) : Option Int :=
  match l with
  | '-' :: rest => (digitsToNat rest).map (fun n => -(n : Int))
  | '+' :: rest => (digitsToNat rest).map (fun n => (n : Int))
  | _ => (digitsToNat l).map (fun n => (n : Int))

/-- Decimal digit character of `n < 10`. -/
def digitChar (n : Nat) : Char := Char.ofNat (48 + n)

/-- 2-digit zero-padded decimal rendering (numpy month formatting). -/
def pad2 (n : Nat) : List Char := [digitChar (n / 10 % 10), digitChar (n % 10)]

/-- 3-digit zero-padded decimal rendering (`strftime` day-of-year). -/
def pad3 (n : Nat) : List Char :=
  [digitChar (n / 100 % 10), digitChar (n / 10 % 10), digitChar (n % 10)]

/-- 4-digit zero-padded decimal rendering (numpy year formatting,
for the 4-digit years the code handles). -/
def pad4 (n : Nat) : List Char :=
  [digitChar (n / 1000 % 10), digitChar (n / 100 % 10), digitChar (n / 10 % 10),
   digitChar (n % 10)]

/-! ## Error taxonomy -/

/-- Failure modes of the catalog code.  The code raises `ValueError`
everywhere; the spec names the classes `MalformedTimestamp` (a bad
timestamp string, `tools.parse_date`), `UnrecognizedConvention` (an
unrecognized product basename, `tools.extract_start_stop_dates_from_sar`).
`invalidSmosKey` models the `ValueError` of `int()` on a non-numeric SMOS
filename token, `indexError` a Python `IndexError` on a too-short token
list, `keyError` the `KeyError` of an unknown sensor name in
`tools.get_acquisition_root_paths`. -/
inductive ToolsError
  | malformedTimestamp
  | unrecognizedConvention
  | invalidSmosKey
  | indexError
  | keyError
deriving DecidableEq

/-! ## `tools.parse_date` -/

/-- `tools.parse_date`: parse a 14-character `YYYYMMDDHHMMSS` string into an
instant (seconds since 0001-01-01), modelling
`np.datetime64(datetime.strptime(date, '%Y%m%d%H%M%S'))`.
The code first raises for a length other than 14; `strptime` then requires
every field to be decimal and a valid calendar/clock value (the `datetime`
constructor enforces `MINYEAR = 1 ≤ year`, `1 ≤ month ≤ 12`,
`1 ≤ day ≤ daysInMonth`, `hour ≤ 23`, `minute ≤ 59`, `second ≤ 59` —
seconds 60/61 pass the `_strptime` regex but are rejected by the
constructor).  All those failures are `ValueError`s, the spec's
`MalformedTimestamp`. -/
def parse_date (date : List Char) : Except ToolsError Nat :=
  if date.length ≠ 14 then .error .malformedTimestamp
  else
    match date.mapM digitVal with
    | none => .error .malformedTimestamp
    | some ds =>
      let y := ds.getD 0 0 * 1000 + ds.getD 1 0 * 100 + ds.getD 2 0 * 10 + ds.getD 3 0
      let m := ds.getD 4 0 * 10 + ds.getD 5 0
      let d := ds.getD 6 0 * 10 + ds.getD 7 0
      let hh := ds.getD 8 0 * 10 + ds.getD 9 0
      let mi := ds.getD 10 0 * 10 + ds.getD 11 0
      let ss := ds.getD 12 0 * 10 + ds.getD 13 0
      if y = 0 ∨ m < 1 ∨ 12 < m ∨ d < 1 ∨ daysInMonth y m < d
          ∨ 23 < hh ∨ 59 < mi ∨ 59 < ss then
        .error .malformedTimestamp
      else
        .ok (toDays y m d * 86400 + hh * 3600 + mi * 60 + ss)

/-- Digit value of position `i` of a candidate timestamp string
(spec-side accessor; positions follow the `YYYYMMDDHHMMSS` layout). -/
def tsDigit (s : List Char) (i : Nat) : Nat := (s.getD i '0').toNat - 48

/-- Spec-side field accessors of a timestamp string. -/
def tsYear (s : List Char) : Nat :=
  tsDigit s 0 * 1000 + tsDigit s 1 * 100 + tsDigit s 2 * 10 + tsDigit s 3

def tsMonth (s : List Char) : Nat := tsDigit s 4 * 10 + tsDigit s 5

def tsDay (s : List Char) : Nat := tsDigit s 6 * 10 + tsDigit s 7

def tsHour (s : List Char) : Nat := tsDigit s 8 * 10 + tsDigit s 9

def tsMinute (s : List Char) : Nat := tsDigit s 10 * 10 + tsDigit s 11

def tsSecond (s : List Char) : Nat := tsDigit s 12 * 10 + tsDigit s 13

/-- Spec notion of a well-formed compact timestamp, following §4.1 of the
spec: exactly 14 characters, all decimal digits, in the pattern
`YYYYMMDDHHMMSS` with valid calendar/clock fields. -/
def specValidTimestamp (s : List Char) : Prop :=
  s.length = 14 ∧ (∀ c ∈ s, '0' ≤ c ∧ c ≤ '9') ∧
  1 ≤ tsYear s ∧ 1 ≤ tsMonth s ∧ tsMonth s ≤ 12 ∧
  1 ≤ tsDay s ∧ tsDay s ≤ daysInMonth (tsYear s) (tsMonth s) ∧
  tsHour s ≤ 23 ∧ tsMinute s ≤ 59 ∧ tsSecond s ≤ 59

instance (s : List Char) : Decidable (specValidTimestamp s) := by
  unfold specValidTimestamp
  infer_instance

/-- The instant denoted by a well-formed timestamp string (spec side). -/
def specTimestampValue (s : List Char) : Nat :=
  toDays (tsYear s) (tsMonth s) (tsDay s) * 86400
    + tsHour s * 3600 + tsMinute s * 60 + tsSecond s

/-! ## `tools.extract_start_stop_dates_from_sar` -/

/-- Remove every occurrence of `'T'` (Python `str.replace('T', '')`). -/
def removeT (s : List Char) : List Char := s.filter (fun c => c ≠ 'T')

/-- `tools.extract_start_stop_dates_from_sar`: start/stop instants of a SAR
product filename.  Level-2 products (`.nc` suffix, checked on the original
basename) split the uppercased basename on `-` and parse fields 4 and 5;
Level-1 S1 products split on `_` and parse fields `[-5]`, `[-4]`; Level-1
RS2/RCM products split on `_`, parse the concatenation of fields 5 and 6 as
the start, and synthesize `stop = start + 5 minutes`; any other non-`.nc`
basename raises (the spec's `UnrecognizedConvention`).  Python list indexing
out of range raises `IndexError`. -/
def extract_start_stop_dates_from_sar (product_path : List Char) :
    Except ToolsError (Nat × Nat) :=
  let basename := baseName product_path
  let upper_basename := upperStr basename
  if List.isSuffixOf ".nc".data basename then
    let sb := splitOnChar '-' upper_basename
    if sb.length < 6 then .error .indexError
    else do
      let start ← parse_date (removeT (sb.getD 4 []))
      let stop ← parse_date (removeT (sb.getD 5 []))
      .ok (start, stop)
  else
    let sb := splitOnChar '_' upper_basename
    if List.isPrefixOf "S1".data upper_basename then
      if sb.length < 5 then .error .indexError
      else do
        let start ← parse_date (removeT (sb.getD (sb.length - 5) []))
        let stop ← parse_date (removeT (sb.getD (sb.length - 4) []))
        .ok (start, stop)
    else if List.isPrefixOf "RCM".data upper_basename
        || List.isPrefixOf "RS2".data upper_basename then
      if sb.length < 7 then .error .indexError
      else do
        let start ← parse_date (sb.getD 5 [] ++ sb.getD 6 [])
        .ok (start, start + 300)
    else .error .unrecognizedConvention

/-! ## `tools.date_schemes` -/

/-- One value of the `tools.date_schemes` mapping: the formatted year,
day-of-year (`strftime('%j')`) and month of one calendar day. -/
structure DateSchemeEntry where
  year : List Char
  dayOfYear : List Char
  month : List Char
deriving DecidableEq

/-- Key/value pair emitted by one iteration of the `date_schemes` loop for
the day with 0-based ordinal `r`: the key is the compact `YYYYMMDD` day
string (`str(date.astype('datetime64[D]')).replace('-', '')`), the value
holds the formatted year, day-of-year and month of that day. -/
def schemeKeyEntry (r : Nat) : List Char × DateSchemeEntry :=
  (pad4 (fromDays r).1 ++ pad2 (fromDays r).2.1 ++ pad2 (fromDays r).2.2,
   { year := pad4 (fromDays r).1,
     dayOfYear := pad3 (r - toDays (fromDays r).1 1 1 + 1),
     month := pad2 (fromDays r).2.1 })

/-- The `while` loop of `tools.date_schemes`, with an explicit fuel bound on
the iteration count.  Each iteration emits the entry of the current day and
advances `date` by `np.timedelta64(1, 'D')` (86400 s) while
`date.astype('datetime64[D]') <= stop_date.astype('datetime64[D]')`.
The fuel passed by `date_schemes` (`stop_day + 1`) always dominates the
number of iterations, so the fuel never cuts the loop short. -/
def date_schemes_loop (stop_day : Nat) : Nat → Nat → List (List Char × DateSchemeEntry)
  | 0, _ => []
  | fuel + 1, date =>
    if date / 86400 ≤ stop_day then
      schemeKeyEntry (date / 86400) :: date_schemes_loop stop_day fuel (date + 86400)
    else []

/-- `tools.date_schemes`: one entry per calendar day from the day of
`start_date` through the day of `stop_date` (both floored to day
granularity), in ascending order; empty when the floored start is after the
floored stop.  Python returns an insertion-ordered dict; the keys (compact
day strings) are pairwise distinct, so an association list is faithful. -/
def date_schemes (start_date stop_date : Nat) : List (List Char × DateSchemeEntry) :=
  date_schemes_loop (stop_date / 86400) (stop_date / 86400 + 1) start_date

/-! ## SMOS generation deduplication (`tools.get_last_generation_files`) -/

/-- `extract_smos_sort_keys` (inner function of
`tools.get_all_comparison_files`): from a SMOS path, the tuple
`(basename.split('_')[-5], int(basename.split('_')[-4]),
int(basename.split('_')[-2]))` — orbit direction, date, generation.
A short token list raises `IndexError`; a non-numeric token raises
`ValueError` from `int()`. -/
def extract_smos_sort_keys (string : List Char) :
    Except ToolsError (List Char × Int × Int) :=
  let b := splitOnChar '_' (baseName string)
  if b.length < 5 then .error .indexError
  else
    match parseInt (b.getD (b.length - 4) []), parseInt (b.getD (b.length - 2) []) with
    | some key2, some key3 => .ok (b.getD (b.length - 5) [], key2, key3)
    | _, _ => .error .invalidSmosKey

/-- Total version of the sort key used by `sorted(files_list,
key=extract_smos_sort_keys)`; the junk default is never reached on the
inputs `get_last_generation_files` actually sorts, because it evaluates all
keys first and propagates their errors. -/
def smosKey (s : List Char) : List Char × Int × Int :=
  ((extract_smos_sort_keys s).toOption).getD ([], 0, 0)

/-- Python `<` on strings: lexicographic comparison of code points. -/
def charListLT : List Char → List Char → Bool
  | [], [] => false
  | [], _ :: _ => true
  | _ :: _, [] => false
  | a :: as, b :: bs => if a < b then true else if a = b then charListLT as bs else false

/-- Python `<=` on the `(str, int, int)` sort-key tuples (lexicographic). -/
def smosKeyLE (x y : List Char × Int × Int) : Bool :=
  charListLT x.1 y.1 ||
    (x.1 == y.1 &&
      (decide (x.2.1 < y.2.1) ||
        (x.2.1 == y.2.1 && decide (x.2.2 ≤ y.2.2))))

/-- The sort relation of `sorted(files_list, key=extract_smos_sort_keys)`.
Python sort is stable for a total preorder on keys; a stable sorted
permutation is unique, so Mathlib's (stable) insertion sort under this
relation produces exactly Python's result. -/
def smosFileLE (x y : List Char) : Prop := smosKeyLE (smosKey x) (smosKey y) = true

instance : DecidableRel smosFileLE := fun x y =>
  inferInstanceAs (Decidable (smosKeyLE (smosKey x) (smosKey y) = true))

/-- The identity-group key of a SMOS path:
`'_'.join(os.path.basename(file).split('_')[:-2])` — every basename token
except the trailing generation counter and extension token. -/
def smosGroupId (file : List Char) : List Char :=
  List.intercalate ['_']
    ((splitOnChar '_' (baseName file)).take ((splitOnChar '_' (baseName file)).length - 2))

/-- The scan loop of `tools.get_last_generation_files` over the sorted list:
`last_generation_file` is the current best of the current identity group;
a file of the same group replaces it when its generation is `>=` the best's
generation; a file of a new group first emits the previous best; the last
file of the list is always emitted (`final_files.append(file)` under
`index == len(sorted_files) - 1`). -/
def lastGenScan (last_generation_file : List Char) :
    List (List Char) → List (List Char)
  | [] => []
  | [file] =>
    if smosGroupId file = smosGroupId last_generation_file then [file]
    else [last_generation_file, file]
  | file :: next :: rest =>
    if smosGroupId file = smosGroupId last_generation_file then
      if (smosKey last_generation_file).2.2 ≤ (smosKey file).2.2 then
        lastGenScan file (next :: rest)
      else
        lastGenScan last_generation_file (next :: rest)
    else
      last_generation_file :: lastGenScan file (next :: rest)

/-- `tools.get_last_generation_files`: an empty input is returned as is;
otherwise all sort keys are evaluated (`sorted` applies the key function to
every element first, so a bad element raises before any scanning), the list
is sorted by `(orbit, date, generation)`, and the scan loop runs with the
first sorted file as initial best, iterating over the whole sorted list
(including that first file again, which is a no-op replacement). -/
def get_last_generation_files (files_list : List (List Char)) :
    Except ToolsError (List (List Char)) :=
  if files_list.length = 0 then .ok files_list
  else
    match files_list.mapM extract_smos_sort_keys with
    | .error e => .error e
    | .ok _ =>
      match List.insertionSort smosFileLE files_list with
      | [] => .ok []
      | f0 :: rest => .ok (lastGenScan f0 (f0 :: rest))

/-! ## `tools.unique` and `tools.get_nearest_era5_files` -/

/-- `tools.unique`: order-preserving deduplication
(`list(dict.fromkeys(iterable))`).  Defined at module level in the source
but never applied inside `get_all_comparison_files`. -/
def unique (iterable : List (List Char)) : List (List Char) :=
  iterable.foldl (fun acc x => if x ∈ acc then acc else acc ++ [x]) []

/-- The `while date < stop_date` loop of `tools.get_nearest_era5_files`.
`resolver` models the external collaborator
`xsar.raster_readers.resource_strftime` (resource template, step, cursor
instant ↦ resolved filename).  The loop resolves the cursor, appends the
filename when unseen, and advances the cursor by `step` minutes.  The fuel
(`stop_date - start_date` at the top call) dominates the iteration count
for every `step ≥ 1`, so the fuel never cuts the loop short; the source
loop does not terminate for `step = 0`, which the model folds into the
guard. -/
def era5_loop (resolver : List Char → Nat → Nat → List Char)
    (resource : List Char) (stop_date step : Nat) :
    Nat → Nat → List (List Char) → List (List Char)
  | 0, _, files => files
  | fuel + 1, date, files =>
    if date < stop_date ∧ 0 < step then
      era5_loop resolver resource stop_date step fuel (date + step * 60)
        (if resolver resource step date ∈ files then files
         else files ++ [resolver resource step date])
    else files

/-- `tools.get_nearest_era5_files`: starting at `start_date`, repeatedly
resolve the cursor against the resource template, collect unseen filenames
in first-resolution order, and advance by `step` minutes while the cursor
is strictly before `stop_date` (the source default is `step = 1`). -/
def get_nearest_era5_files (resolver : List Char → Nat → Nat → List Char)
    (start_date stop_date : Nat) (resource : List Char) (step : Nat) :
    List (List Char) :=
  era5_loop resolver resource stop_date step (stop_date - start_date) start_date []

/-! ## Geometry normalization (`tools.cross_antemeridian`, `tools.correct_dataset`) -/

/-- `np.max` over a nonempty longitude array (the code never applies it to
an empty one). -/
def lonMax : List Int → Int
  | [] => 0
  | x :: xs => xs.foldl max x

/-- `np.min` over a nonempty longitude array. -/
def lonMin : List Int → Int
  | [] => 0
  | x :: xs => xs.foldl min x

/-- `tools.cross_antemeridian` (and the identical inner function of
`tools.correct_dataset`): `(np.max(lon) - np.min(lon)) > 180`. -/
def cross_antemeridian (lon : List Int) : Bool :=
  decide (180 < lonMax lon - lonMin lon)

/-- `tools.correct_dataset` acting on a one-dimensional longitude
coordinate: when the antemeridian is crossed the values are remapped by
`(lon + 180) % 360` (Python float `%`, i.e. `x - 360*⌊x/360⌋`, which on
integers is `Int.emod` with result in `[0, 360)`); then — unconditionally —
the coordinate is reassigned to `lon - 180`; a one-dimensional coordinate
is finally sorted ascending (`dataset.sortby(lon_name)`). -/
def correct_dataset (lon : List Int) : List Int :=
  let lon1 := if cross_antemeridian lon then lon.map (fun v => (v + 180) % 360) else lon
  let lon2 := lon1.map (fun v => v - 180)
  List.insertionSort (fun a b : Int => a ≤ b) lon2

/-! ## Root path registry (`tools.get_acquisition_root_paths`) -/

/-- SMOS root paths (flat list in the source registry). -/
def smos_root_paths : List (List Char) :=
  ["/home/ref-smoswind-public/data/v3.0/l3/data/reprocessing".data,
   "/home/ref-smoswind-public/data/v3.0/l3/data/nrt".data]

/-- HY2 root paths. -/
def hy2_root_paths : List (List Char) :=
  ["/home/datawork-cersat-public/provider/knmi/satellite/l2b/hy-2b/hscat/25km/data".data]

/-- ERA5 root path templates. -/
def era5_root_paths : List (List Char) :=
  ["/home/ref-ecmwf/ERA5/%Y/%m/era_5-copernicus__%Y%m%d.nc".data]

/-- RS2 level-1 root paths. -/
def rs2_l1_root_paths : List (List Char) :=
  ["/home/datawork-cersat-public/cache/project/sarwing/data/RS2/L1".data]

/-- RS2 level-2 root paths. -/
def rs2_l2_root_paths : List (List Char) :=
  ["/home/datawork-cersat-public/cache/public/ftp/project/sarwing/processings/c39e79a/default/RS2/*".data]

/-- S1 level-1 root paths. -/
def s1_l1_root_paths : List (List Char) :=
  ["/home/datawork-cersat-public/cache/project/mpc-sentinel1/data/esa/sentinel-1*/L1".data]

/-- S1 level-2 root paths (the second entry is the concatenation the source
builds with `+`). -/
def s1_l2_root_paths : List (List Char) :=
  ["/home/datawork-cersat-public/cache/project/sarwing/data/sentinel-1*".data,
   "/home/datawork-cersat-public/cache/public/ftp/project/sarwing/processings/c39e79a/default/sentinel-1*".data]

/-- RCM level-1 root paths (the RCM registry entry has no L2 key). -/
def rcm_l1_root_paths : List (List Char) :=
  ["/home/datawork-cersat-public/provider/asc-csa/satellite/l1/rcm/*/*/*".data]

/-- Shape of one registry entry: a flat root list (SMOS, HY2, ERA5) or a
level-keyed mapping (RS2, S1, RCM; RCM's missing L2 key is modelled by an
empty L2 list, which yields exactly the source's iteration over L1 only,
its L2 loop body being `pass`). -/
inductive RootPaths
  | flat (roots : List (List Char))
  | leveled (l1 l2 : List (List Char))

/-- `tools.get_acquisition_root_paths`: the static sensor registry; an
unknown sensor name raises `KeyError`. -/
def get_acquisition_root_paths (db_name : List Char) : Except ToolsError RootPaths :=
  if db_name = "SMOS".data then .ok (.flat smos_root_paths)
  else if db_name = "HY2".data then .ok (.flat hy2_root_paths)
  else if db_name = "ERA5".data then .ok (.flat era5_root_paths)
  else if db_name = "RS2".data then .ok (.leveled rs2_l1_root_paths rs2_l2_root_paths)
  else if db_name = "S1".data then .ok (.leveled s1_l1_root_paths s1_l2_root_paths)
  else if db_name = "RCM".data then .ok (.leveled rcm_l1_root_paths [])
  else .error .keyError

/-! ## Glob pattern construction (`tools.get_all_comparison_files` loops) -/

/-- SMOS glob patterns: for every root, for every day scheme,
`os.path.join(root, year, dayOfYear, '*' + scheme + '*nc')`
(roots outer, schemes inner, matching the source's loop nesting). -/
def smos_patterns (start_date stop_date : Nat) : List (List Char) :=
  smos_root_paths.flatMap (fun root =>
    (date_schemes start_date stop_date).map (fun kv =>
      joinPath [root, kv.2.year, kv.2.dayOfYear, "*".data ++ kv.1 ++ "*nc".data]))

/-- HY2 glob patterns (same shape as SMOS over the HY2 roots). -/
def hy2_patterns (start_date stop_date : Nat) : List (List Char) :=
  hy2_root_paths.flatMap (fun root =>
    (date_schemes start_date stop_date).map (fun kv =>
      joinPath [root, kv.2.year, kv.2.dayOfYear, "*".data ++ kv.1 ++ "*nc".data]))

/-- S1 glob patterns: the L1 loop then the L2 loop (dict iteration order),
with the wildcard directory levels and suffixes of the source. -/
def s1_patterns (start_date stop_date : Nat) : List (List Char) :=
  (s1_l1_root_paths.flatMap (fun root =>
    (date_schemes start_date stop_date).map (fun kv =>
      joinPath [root, "*".data, "*".data, kv.2.year, kv.2.dayOfYear,
        "S1*".data ++ kv.1 ++ "*SAFE".data])))
  ++ (s1_l2_root_paths.flatMap (fun root =>
    (date_schemes start_date stop_date).map (fun kv =>
      joinPath [root, "*".data, "*".data, "*".data, kv.2.year, kv.2.dayOfYear,
        "S1*".data ++ kv.1 ++ "*SAFE".data, "*owi*.nc".data])))

/-- RS2 glob patterns: L1 then L2. -/
def rs2_patterns (start_date stop_date : Nat) : List (List Char) :=
  (rs2_l1_root_paths.flatMap (fun root =>
    (date_schemes start_date stop_date).map (fun kv =>
      joinPath [root, "*".data, kv.2.year, kv.2.dayOfYear,
        "RS2*".data ++ kv.1 ++ "*".data])))
  ++ (rs2_l2_root_paths.flatMap (fun root =>
    (date_schemes start_date stop_date).map (fun kv =>
      joinPath [root, "*".data, kv.2.year, kv.2.dayOfYear,
        "RS2*".data ++ kv.1 ++ "*".data, "*owi*.nc".data])))

/-- RCM glob patterns: only L1 exists; the source greps `RS2*` here
(kept verbatim). -/
def rcm_patterns (start_date stop_date : Nat) : List (List Char) :=
  rcm_l1_root_paths.flatMap (fun root =>
    (date_schemes start_date stop_date).map (fun kv =>
      joinPath [root, kv.2.year, kv.2.dayOfYear,
        "RS2*".data ++ kv.1 ++ "*".data]))

/-- The glob pattern list a SAR sensor hands to the discovery collaborator. -/
def sarPatterns (db_name : List Char) (start_date stop_date : Nat) : List (List Char) :=
  if db_name = "S1".data then s1_patterns start_date stop_date
  else if db_name = "RS2".data then rs2_patterns start_date stop_date
  else rcm_patterns start_date stop_date

/-! ## Temporal filters (the `files.copy()` / `files.remove` loops) -/

/-- One pass of the Python pattern `for f in files.copy(): if p(f):
files.remove(f)`: a left fold over the iterated copy, erasing the first
occurrence of each offending value from the working list. -/
def removeEraseFold (p : List Char → Bool) (cands files : List (List Char)) :
    List (List Char) :=
  cands.foldl (fun fs f => if p f then fs.erase f else fs) files

/-- Removal condition of the SAR temporal filter:
`(stop < start_date) or (start > stop_date)` on the candidate's extracted
interval (`False` is unreachable on the guarded call path). -/
def sarShouldRemove (start_date stop_date : Nat) (f : List Char) : Bool :=
  match extract_start_stop_dates_from_sar f with
  | .ok (s, t) => decide (t < start_date) || decide (stop_date < s)
  | .error _ => false

/-- Keep condition of the SAR temporal filter under closed-interval
intersection semantics: `stop >= refStart and start <= refStop`. -/
def sarKeep (start_date stop_date : Nat) (f : List Char) : Bool :=
  match extract_start_stop_dates_from_sar f with
  | .ok (s, t) => decide (start_date ≤ t) && decide (s ≤ stop_date)
  | .error _ => false

/-- The SAR temporal-filter pass of `tools.get_all_comparison_files`
(lines 197-201): each candidate's interval is extracted (an extraction
error propagates out of the whole call, discarding the partially mutated
list, which an up-front `mapM` models faithfully), and candidates whose
interval does not intersect `[start_date, stop_date]` are removed. -/
def sar_temporal_filter (start_date stop_date : Nat) (files : List (List Char)) :
    Except ToolsError (List (List Char)) :=
  match files.mapM extract_start_stop_dates_from_sar with
  | .error e => .error e
  | .ok _ => .ok (removeEraseFold (sarShouldRemove start_date stop_date) files files)

/-- Removal condition of the HY2 temporal filter, over the collaborator
`extract_start_stop_dates_from_hy` (min/max of the opened product's time
coordinate), supplied as the oracle `hyOr`. -/
def hyShouldRemove (hyOr : List Char → Nat × Nat) (start_date stop_date : Nat)
    (f : List Char) : Bool :=
  decide ((hyOr f).2 < start_date) || decide (stop_date < (hyOr f).1)

/-! ## `tools.get_all_comparison_files` -/

/-- `tools.get_all_comparison_files`, with the filesystem and file-content
collaborators passed explicitly: `globFn` models `glob.glob`, `hyOr` the
HY2 time-coordinate reader, `eraRes` the ERA5 `resource_strftime`
resolver.  For each sensor the day schemes and root registry yield glob
patterns whose matches are concatenated in loop order; SMOS results then
pass generation deduplication, HY2 results the HY2 temporal filter, ERA5
uses the periodic resolver (assignment per root, not `+=`), and
S1/RS2/RCM results pass the SAR temporal filter.  An unknown sensor name
raises `KeyError` at the registry lookup. -/
def get_all_comparison_files (globFn : List Char → List (List Char))
    (hyOr : List Char → Nat × Nat) (eraRes : List Char → Nat → Nat → List Char)
    (start_date stop_date : Nat) (db_name : List Char) :
    Except ToolsError (List (List Char)) :=
  match get_acquisition_root_paths db_name with
  | .error e => .error e
  | .ok _ =>
    if db_name = "SMOS".data then
      get_last_generation_files ((smos_patterns start_date stop_date).flatMap globFn)
    else if db_name = "HY2".data then
      let files := (hy2_patterns start_date stop_date).flatMap globFn
      .ok (removeEraseFold (hyShouldRemove hyOr start_date stop_date) files files)
    else if db_name = "ERA5".data then
      .ok (era5_root_paths.foldl
        (fun _ root => get_nearest_era5_files eraRes start_date stop_date root 1) [])
    else
      sar_temporal_filter start_date stop_date
        ((sarPatterns db_name start_date stop_date).flatMap globFn)

/-! ## Concrete oracles and inputs used by counterexamples and witnesses -/

/-- A well-formed RS2 level-1 basename whose date token (index 5) is
`20230615` and time token (index 6) is `120000`. -/
def rs2SamplePath : List Char := "RS2_OK_SC50_A_B_20230615_120000_VV".data

/-- A discovery oracle under which every pattern matches `rs2SamplePath`:
the same path is then returned for the patterns of two distinct day/level
windows. -/
def dupGlob : List Char → List (List Char) := fun _ => [rs2SamplePath]

/-- A discovery oracle that matches nothing. -/
def emptyGlob : List Char → List (List Char) := fun _ => []

/-- Trivial HY2 oracle (HY2 is not exercised by the concrete runs). -/
def trivHyOr : List Char → Nat × Nat := fun _ => (0, 0)

/-- Trivial ERA5 resolver oracle. -/
def trivEraRes : List Char → Nat → Nat → List Char := fun _ _ _ => []

/-- An ERA5 resolver that resolves every cursor instant of one day to that
day's archive filename (per-day granularity, like the real archive). -/
def dailyEraRes : List Char → Nat → Nat → List Char := fun _ _ date =>
  "era_5-copernicus__".data ++ pad4 (fromDays (date / 86400)).1
    ++ pad2 (fromDays (date / 86400)).2.1 ++ pad2 (fromDays (date / 86400)).2.2 ++ ".nc".data

/-! ## Derived predicates used by the SMOS theorems -/

/-- Identity groups occur contiguously in a list: every element either
shares its group with its successor or its group never reappears later. -/
def smosGrouped : List (List Char) → Prop
  | [] => True
  | [_] => True
  | a :: b :: t =>
    (smosGroupId a = smosGroupId b ∨ ∀ x ∈ b :: t, smosGroupId x ≠ smosGroupId a) ∧
    smosGrouped (b :: t)

/-- Strict part of the `(orbit, date)` key order (ignoring generation). -/
def smosKeyLT12 (x y : List Char × Int × Int) : Prop :=
  charListLT x.1 y.1 = true ∨ (x.1 = y.1 ∧ x.2.1 < y.2.1)

/-! ## Calendar correctness -/

set_option maxRecDepth 10000 in
theorem monthFromDoy_valid : ∀ (L : Bool), ∀ n0 < 365,
    1 ≤ (monthFromDoy L n0).1 ∧ (monthFromDoy L n0).1 ≤ 12 ∧
    1 ≤ (monthFromDoy L n0).2 ∧
    (monthFromDoy L n0).2 ≤ daysInMonthL L (monthFromDoy L n0).1 ∧
    daysBeforeMonthL L (monthFromDoy L n0).1 + ((monthFromDoy L n0).2 - 1) = n0 := by
  decide

theorem isLeap_iff (y : Nat) :
    isLeap y = true ↔ (y % 4 = 0 ∧ (y % 100 ≠ 0 ∨ y % 400 = 0)) := by
  simp [isLeap, Bool.and_eq_true, Bool.or_eq_true, beq_iff_eq, bne_iff_ne]

set_option maxHeartbeats 1000000 in
theorem fromDays_valid_aux (a b c e n0 : Nat)
    (hb : b ≤ 4) (hc : c ≤ 24) (he : e ≤ 4) (hn0 : n0 ≤ 364)
    (hch1 : 365 * e + n0 ≤ 1460)
    (hch2 : 1461 * c + 365 * e + n0 ≤ 36523)
    (hch3 : 36524 * b + 1461 * c + 365 * e + n0 ≤ 146096) :
    let fd : Nat × Nat × Nat :=
      if e = 4 ∨ b = 4 then
        (400 * a + 100 * b + 4 * c + e, 12, 31)
      else
        (400 * a + 100 * b + 4 * c + e + 1,
         (monthFromDoy (isLeap (400 * a + 100 * b + 4 * c + e + 1)) n0).1,
         (monthFromDoy (isLeap (400 * a + 100 * b + 4 * c + e + 1)) n0).2)
    1 ≤ fd.1 ∧ 1 ≤ fd.2.1 ∧ fd.2.1 ≤ 12 ∧
    1 ≤ fd.2.2 ∧ fd.2.2 ≤ daysInMonth fd.1 fd.2.1 ∧
    toDays fd.1 fd.2.1 fd.2.2 = 146097 * a + 36524 * b + 1461 * c + 365 * e + n0 := by
  intro fd
  simp only [fd]
  split
  case isTrue hedge =>
    dsimp only
    have hleap : isLeap (400 * a + 100 * b + 4 * c + e) = true := by
      rw [isLeap_iff]
      rcases hedge with h4 | h4 <;> omega
    have h335 : daysBeforeMonthL true 12 = 335 := rfl
    have h31 : daysInMonthL true 12 = 31 := rfl
    simp only [toDays, daysInMonth, daysBeforeMonth, hleap]
    rw [h335, h31]
    rcases hedge with h4 | h4
    · have hc23 : c ≤ 23 := by omega
      have q4 : (400 * a + 100 * b + 4 * c + e - 1) / 4 = 100 * a + 25 * b + c := by omega
      have q100 : (400 * a + 100 * b + 4 * c + e - 1) / 100 = 4 * a + b := by omega
      have q400 : (400 * a + 100 * b + 4 * c + e - 1) / 400 = a := by omega
      omega
    · have hz : c = 0 ∧ e = 0 ∧ n0 = 0 := by omega
      have q4 : (400 * a + 100 * b + 4 * c + e - 1) / 4 = 100 * a + 99 := by omega
      have q100 : (400 * a + 100 * b + 4 * c + e - 1) / 100 = 4 * a + 3 := by omega
      have q400 : (400 * a + 100 * b + 4 * c + e - 1) / 400 = a := by omega
      omega
  case isFalse hedge =>
    dsimp only
    push_neg at hedge
    obtain ⟨hm1, hm2, hm3, hm4, hm5⟩ :=
      monthFromDoy_valid (isLeap (400 * a + 100 * b + 4 * c + e + 1)) n0 (by omega)
    refine ⟨by omega, hm1, hm2, hm3, ?_, ?_⟩
    · simpa only [daysInMonth] using hm4
    · simp only [toDays, daysBeforeMonth]
      have q4 : (400 * a + 100 * b + 4 * c + e + 1 - 1) / 4 = 100 * a + 25 * b + c := by omega
      have q100 : (400 * a + 100 * b + 4 * c + e + 1 - 1) / 100 = 4 * a + b := by omega
      have q400 : (400 * a + 100 * b + 4 * c + e + 1 - 1) / 400 = a := by omega
      omega

set_option maxHeartbeats 1000000 in
theorem fromDays_valid (r : Nat) :
    1 ≤ (fromDays r).1 ∧ 1 ≤ (fromDays r).2.1 ∧ (fromDays r).2.1 ≤ 12 ∧
    1 ≤ (fromDays r).2.2 ∧ (fromDays r).2.2 ≤ daysInMonth (fromDays r).1 (fromDays r).2.1 ∧
    toDays (fromDays r).1 (fromDays r).2.1 (fromDays r).2.2 = r := by
  have h := fromDays_valid_aux (r / 146097) (r % 146097 / 36524)
    (r % 146097 % 36524 / 1461) (r % 146097 % 36524 % 1461 / 365)
    (r % 146097 % 36524 % 1461 % 365)
    (by omega) (by omega) (by omega) (by omega) (by omega) (by omega) (by omega)
  simp only [] at h
  rw [fromDays]
  have hr : 146097 * (r / 146097) + 36524 * (r % 146097 / 36524)
      + 1461 * (r % 146097 % 36524 / 1461) + 365 * (r % 146097 % 36524 % 1461 / 365)
      + r % 146097 % 36524 % 1461 % 365 = r := by omega
  rw [hr] at h
  exact h

theorem daysBefore_add_le : ∀ (L : Bool), ∀ m < 13, ∀ d < 32,
    1 ≤ m → d ≤ daysInMonthL L m → daysBeforeMonthL L m + d ≤ 366 := by
  decide

theorem daysBeforeMonth_one (y : Nat) : daysBeforeMonth y 1 = 0 := by
  simp [daysBeforeMonth, daysBeforeMonthL]

/-- `toDays` of the first day of the year is the year base; a valid date
decomposes as base + days-before-month + day offset. -/
theorem toDays_decompose (y m d : Nat) :
    toDays y m d = toDays y 1 1 + daysBeforeMonth y m + (d - 1) := by
  simp only [toDays, daysBeforeMonth_one]
  omega

/-! ## The `date_schemes` loop -/

theorem date_schemes_loop_eq (sd : Nat) :
    ∀ (fuel date : Nat), sd + 1 - date / 86400 ≤ fuel →
      date_schemes_loop sd fuel date =
        (List.range (sd + 1 - date / 86400)).map
          (fun i => schemeKeyEntry (date / 86400 + i)) := by
  intro fuel
  induction fuel with
  | zero =>
    intro date h
    have h0 : sd + 1 - date / 86400 = 0 := by omega
    rw [h0]
    rfl
  | succ n ih =>
    intro date h
    rw [date_schemes_loop]
    split
    case isTrue hle =>
      have hdiv : (date + 86400) / 86400 = date / 86400 + 1 := by omega
      rw [ih (date + 86400) (by omega), hdiv]
      have hn : sd + 1 - date / 86400 = (sd + 1 - (date / 86400 + 1)) + 1 := by omega
      rw [hn, List.range_succ_eq_map, List.map_cons, List.map_map]
      refine List.cons_eq_cons.mpr ⟨by simp, ?_⟩
      apply List.map_congr_left
      intro i hi
      simp only [Function.comp_apply]
      have : date / 86400 + 1 + i = date / 86400 + Nat.succ i := by omega
      rw [this]
    case isFalse hgt =>
      have h0 : sd + 1 - date / 86400 = 0 := by omega
      rw [h0]
      rfl

theorem date_schemes_eq (start_date stop_date : Nat) :
    date_schemes start_date stop_date =
      (List.range (stop_date / 86400 + 1 - start_date / 86400)).map
        (fun i => schemeKeyEntry (start_date / 86400 + i)) :=
  date_schemes_loop_eq _ _ _ (by omega)

/-! ## Claim theorems: geometry, date schemes, SMOS examples -/

/-- C1.  The claim says `correct_dataset` is the identity on longitude
arrays with no antemeridian crossing, is idempotent, and always produces
values in `[-180, 180)`.  The code instead subtracts 180 from every
longitude unconditionally (the `% 360` remap alone is guarded by the
crossing test), so on the already-normalized, non-crossing array
`[-10, 10]` it returns `[-190, -170]`: not the identity, not in
`[-180, 180)`, and applying it twice gives `[-370, -350] ≠ [-190, -170]`,
contradicting the claim and the function's own docstring ("Longitude
values are ranging between -180 and 180 degrees").  The spec's own
crossing example `[170, 175, -170, -175]` is handled as described (values
kept, re-sorted ascending for a 1-D coordinate). -/
theorem claim_C1_code_eval :
    cross_antemeridian [-10, 10] = false ∧
    correct_dataset [-10, 10] = [-190, -170] ∧
    correct_dataset [-10, 10] ≠ [-10, 10] ∧
    correct_dataset (correct_dataset [-10, 10]) = [-370, -350] ∧
    correct_dataset (correct_dataset [-10, 10]) ≠ correct_dataset [-10, 10] ∧
    ¬ (∀ v ∈ correct_dataset [-10, 10], -180 ≤ v ∧ v < 180) ∧
    cross_antemeridian [170, 175, -170, -175] = true ∧
    correct_dataset [170, 175, -170, -175] = [-175, -170, 170, 175] := by
  decide

/-- C2, counterexample.  The claim says `date_schemes` fails with an
`InvalidRange` error whenever `start > stop`.  The code raises nothing:
for 2024-01-02T00:00 > 2024-01-01T00:00 the `while` loop guard is false at
entry and the function returns normally with an empty mapping. -/
theorem claim_C2_counterexample :
    toDays 2024 1 1 * 86400 < toDays 2024 1 2 * 86400 ∧
    date_schemes (toDays 2024 1 2 * 86400) (toDays 2024 1 1 * 86400) = [] := by
  constructor
  · decide
  · rfl

/-- C2, amended.  For `start > stop`, `date_schemes` raises nothing and
returns a normal result: the per-day entries from the day floor of
`start` through the day floor of `stop` — empty whenever the day floor of
`start` is after the day floor of `stop`, and still that day's single
entry when the two reversed instants share a calendar day. -/
theorem claim_C2_amended (start_date stop_date : Nat) (_h : stop_date < start_date) :
    (stop_date / 86400 < start_date / 86400 → date_schemes start_date stop_date = []) ∧
    (start_date / 86400 = stop_date / 86400 →
      date_schemes start_date stop_date = [schemeKeyEntry (start_date / 86400)]) := by
  constructor
  · intro hday
    rw [date_schemes_eq]
    have h0 : stop_date / 86400 + 1 - start_date / 86400 = 0 := by omega
    rw [h0]
    rfl
  · intro hday
    rw [date_schemes_eq]
    have h1 : stop_date / 86400 + 1 - start_date / 86400 = 1 := by omega
    rw [h1, show List.range 1 = [0] from rfl, List.map_cons, List.map_nil, Nat.add_zero]

/-- C2, witness for the amended claim at the concrete reversed range. -/
theorem claim_C2_amended_witness :
    date_schemes (toDays 2024 1 2 * 86400) (toDays 2024 1 1 * 86400) = [] ∧
    date_schemes (toDays 2024 1 1 * 86400 + 7200) (toDays 2024 1 1 * 86400 + 3600)
      = [schemeKeyEntry ((toDays 2024 1 1 * 86400 + 7200) / 86400)] :=
  ⟨(claim_C2_amended _ _ (by decide)).1 (by decide),
   (claim_C2_amended _ _ (by decide)).2 (by decide)⟩

theorem daysInMonthL_le (L : Bool) (m : Nat) : daysInMonthL L m ≤ 31 := by
  unfold daysInMonthL
  split <;> first | omega | (split <;> omega)

/-- C7.  For `start ≤ stop`, `date_schemes` produces exactly
`floor_day(stop) - floor_day(start) + 1` entries: one per calendar day
from the day of `start` through the day of `stop` inclusive, in ascending
date order (the i-th entry belongs to day `floor_day(start) + i`), each
entry carrying a month in `[1, 12]` and a day-of-year in `[1, 366]` as its
zero-padded field strings.  Month, year and leap-year rollover are those
of the proleptic Gregorian conversion `fromDays`, proved inverse to
`toDays` in `fromDays_valid`. -/
theorem claim_C7 (start_date stop_date : Nat) (h : start_date ≤ stop_date) :
    (date_schemes start_date stop_date).length
        = stop_date / 86400 - start_date / 86400 + 1 ∧
    date_schemes start_date stop_date =
      (List.range (stop_date / 86400 - start_date / 86400 + 1)).map
        (fun i => schemeKeyEntry (start_date / 86400 + i)) ∧
    (∀ kv ∈ date_schemes start_date stop_date,
      ∃ y m doy, kv.2.year = pad4 y ∧ kv.2.month = pad2 m ∧ kv.2.dayOfYear = pad3 doy ∧
        1 ≤ m ∧ m ≤ 12 ∧ 1 ≤ doy ∧ doy ≤ 366) := by
  have hdd : start_date / 86400 ≤ stop_date / 86400 := Nat.div_le_div_right h
  have hcount : stop_date / 86400 + 1 - start_date / 86400
      = stop_date / 86400 - start_date / 86400 + 1 := by omega
  have heq := date_schemes_eq start_date stop_date
  rw [hcount] at heq
  refine ⟨by rw [heq]; simp, heq, ?_⟩
  intro kv hkv
  rw [heq] at hkv
  obtain ⟨i, _, hkvi⟩ := List.mem_map.mp hkv
  obtain ⟨hy1, hm1, hm12, hd1, hdle, hrt⟩ := fromDays_valid (start_date / 86400 + i)
  refine ⟨(fromDays (start_date / 86400 + i)).1, (fromDays (start_date / 86400 + i)).2.1,
    (start_date / 86400 + i) - toDays (fromDays (start_date / 86400 + i)).1 1 1 + 1,
    ?_, ?_, ?_, hm1, hm12, ?_, ?_⟩
  · rw [← hkvi]; rfl
  · rw [← hkvi]; rfl
  · rw [← hkvi]; rfl
  · omega
  · -- day-of-year bound via the decomposition of the round-tripped ordinal
    have hdec := toDays_decompose (fromDays (start_date / 86400 + i)).1
      (fromDays (start_date / 86400 + i)).2.1 (fromDays (start_date / 86400 + i)).2.2
    rw [hrt] at hdec
    have hd32 : (fromDays (start_date / 86400 + i)).2.2 < 32 := by
      have := daysInMonthL_le (isLeap (fromDays (start_date / 86400 + i)).1)
        (fromDays (start_date / 86400 + i)).2.1
      simp only [daysInMonth] at hdle
      omega
    have hb := daysBefore_add_le (isLeap (fromDays (start_date / 86400 + i)).1)
      (fromDays (start_date / 86400 + i)).2.1 (by omega)
      (fromDays (start_date / 86400 + i)).2.2 hd32 hm1
      (by simpa only [daysInMonth] using hdle)
    simp only [daysBeforeMonth] at hdec
    omega

/-- C7, witness: a window crossing the 2024 leap day and a month boundary
(Feb 28 10:00 to Mar 1 02:00) yields 3 entries, keys 20240228/20240229/
20240301 with day-of-year strings 059/060/061. -/
theorem claim_C7_witness :
    toDays 2024 2 28 * 86400 + 3600 ≤ toDays 2024 3 1 * 86400 + 7200 ∧
    (date_schemes (toDays 2024 2 28 * 86400 + 3600) (toDays 2024 3 1 * 86400 + 7200)).length
      = (toDays 2024 3 1 * 86400 + 7200) / 86400 - (toDays 2024 2 28 * 86400 + 3600) / 86400 + 1 ∧
    (date_schemes (toDays 2024 2 28 * 86400 + 3600) (toDays 2024 3 1 * 86400 + 7200)).map
        Prod.fst = ["20240228".data, "20240229".data, "20240301".data] ∧
    (date_schemes (toDays 2024 2 28 * 86400 + 3600) (toDays 2024 3 1 * 86400 + 7200)).map
        (fun kv => kv.2.dayOfYear) = ["059".data, "060".data, "061".data] :=
  ⟨by decide, (claim_C7 _ _ (by decide)).1, by rfl, by rfl⟩

/-- C3.  Generation dedup on the spec's example: same-group inputs
`[A_gen1, A_gen2, B_gen1]` (the two A paths share every token but the
generation counter; B differs in its date token) yield `[A_gen2, B_gen1]`
in that order; the empty input yields the empty output; and among two
equal-generation duplicates of one group the last-scanned one survives
(the `>=` replacement rule). -/
theorem claim_C3 :
    get_last_generation_files
        ["SM_TEST_A_20200101_K_001_T.nc".data, "SM_TEST_A_20200101_K_002_T.nc".data,
         "SM_TEST_A_20200102_K_001_T.nc".data]
      = .ok ["SM_TEST_A_20200101_K_002_T.nc".data, "SM_TEST_A_20200102_K_001_T.nc".data] ∧
    get_last_generation_files [] = .ok [] ∧
    get_last_generation_files
        ["SM_TEST_A_20200101_K_001_X.nc".data, "SM_TEST_A_20200101_K_001_Y.nc".data]
      = .ok ["SM_TEST_A_20200101_K_001_Y.nc".data] :=
  ⟨rfl, rfl, rfl⟩

/-! ## Timestamp parsing: `parse_date` against the spec contract -/

theorem mapM_digitVal_eq (l : List Char) :
    l.mapM digitVal =
      if ∀ c ∈ l, '0' ≤ c ∧ c ≤ '9' then some (l.map (fun c => c.toNat - 48))
      else none := by
  induction l with
  | nil =>
    rw [if_pos (by simp)]
    rfl
  | cons c cs ih =>
    rw [List.mapM_cons, ih]
    by_cases hc : '0' ≤ c ∧ c ≤ '9'
    · by_cases hcs : ∀ x ∈ cs, '0' ≤ x ∧ x ≤ '9'
      · have hall : ∀ x ∈ c :: cs, '0' ≤ x ∧ x ≤ '9' := by
          intro x hx
          cases hx with
          | head => exact hc
          | tail _ hx2 => exact hcs _ hx2
        rw [if_pos hcs, if_pos hall]
        simp [digitVal, hc]
      · have hnall : ¬ ∀ x ∈ c :: cs, '0' ≤ x ∧ x ≤ '9' :=
          fun hall => hcs fun x hx => hall x (List.mem_cons_of_mem c hx)
        rw [if_neg hcs, if_neg hnall]
        simp [digitVal, hc]
    · have hnall : ¬ ∀ x ∈ c :: cs, '0' ≤ x ∧ x ≤ '9' :=
        fun hall => hc (hall c (List.mem_cons_self c cs))
      rw [if_neg hnall]
      simp [digitVal, hc]

theorem getD_map_digit : ∀ (s : List Char) (i : Nat), i < s.length →
    (s.map (fun ch => ch.toNat - 48)).getD i 0 = (s.getD i '0').toNat - 48 := by
  intro s
  induction s with
  | nil => intro i h; simp at h
  | cons c cs ih =>
    intro i h
    cases i with
    | zero => rfl
    | succ j =>
      simp only [List.map_cons, List.getD_cons_succ]
      exact ih j (by simpa using h)

theorem parse_date_cases (d : List Char) :
    (specValidTimestamp d → parse_date d = .ok (specTimestampValue d)) ∧
    (¬ specValidTimestamp d → parse_date d = .error .malformedTimestamp) := by
  by_cases hlen : d.length = 14
  case neg =>
    have hp : parse_date d = .error .malformedTimestamp := by
      unfold parse_date
      rw [if_pos hlen]
    exact ⟨fun hv => absurd hv.1 hlen, fun _ => hp⟩
  case pos =>
    unfold parse_date
    rw [if_neg (by omega), mapM_digitVal_eq]
    by_cases hdig : ∀ c ∈ d, '0' ≤ c ∧ c ≤ '9'
    case neg =>
      rw [if_neg hdig]
      exact ⟨fun hv => absurd hv.2.1 hdig, fun _ => rfl⟩
    case pos =>
      rw [if_pos hdig]
      dsimp only
      have h0 : (d.map (fun c => c.toNat - 48)).getD 0 0 = tsDigit d 0 := by
        rw [getD_map_digit d 0 (by omega)]; rfl
      have h1 : (d.map (fun c => c.toNat - 48)).getD 1 0 = tsDigit d 1 := by
        rw [getD_map_digit d 1 (by omega)]; rfl
      have h2 : (d.map (fun c => c.toNat - 48)).getD 2 0 = tsDigit d 2 := by
        rw [getD_map_digit d 2 (by omega)]; rfl
      have h3 : (d.map (fun c => c.toNat - 48)).getD 3 0 = tsDigit d 3 := by
        rw [getD_map_digit d 3 (by omega)]; rfl
      have h4 : (d.map (fun c => c.toNat - 48)).getD 4 0 = tsDigit d 4 := by
        rw [getD_map_digit d 4 (by omega)]; rfl
      have h5 : (d.map (fun c => c.toNat - 48)).getD 5 0 = tsDigit d 5 := by
        rw [getD_map_digit d 5 (by omega)]; rfl
      have h6 : (d.map (fun c => c.toNat - 48)).getD 6 0 = tsDigit d 6 := by
        rw [getD_map_digit d 6 (by omega)]; rfl
      have h7 : (d.map (fun c => c.toNat - 48)).getD 7 0 = tsDigit d 7 := by
        rw [getD_map_digit d 7 (by omega)]; rfl
      have h8 : (d.map (fun c => c.toNat - 48)).getD 8 0 = tsDigit d 8 := by
        rw [getD_map_digit d 8 (by omega)]; rfl
      have h9 : (d.map (fun c => c.toNat - 48)).getD 9 0 = tsDigit d 9 := by
        rw [getD_map_digit d 9 (by omega)]; rfl
      have h10 : (d.map (fun c => c.toNat - 48)).getD 10 0 = tsDigit d 10 := by
        rw [getD_map_digit d 10 (by omega)]; rfl
      have h11 : (d.map (fun c => c.toNat - 48)).getD 11 0 = tsDigit d 11 := by
        rw [getD_map_digit d 11 (by omega)]; rfl
      have h12 : (d.map (fun c => c.toNat - 48)).getD 12 0 = tsDigit d 12 := by
        rw [getD_map_digit d 12 (by omega)]; rfl
      have h13 : (d.map (fun c => c.toNat - 48)).getD 13 0 = tsDigit d 13 := by
        rw [getD_map_digit d 13 (by omega)]; rfl
      rw [h0, h1, h2, h3, h4, h5, h6, h7, h8, h9, h10, h11, h12, h13]
      constructor
      · intro hv
        obtain ⟨_, _, hy, hm1, hm2, hd1, hd2, hh, hmi, hs⟩ := hv
        rw [if_neg ?hcond]
        case hcond =>
          simp only [tsYear, tsMonth, tsDay, tsHour, tsMinute, tsSecond] at hy hm1 hm2 hd1 hd2 hh hmi hs
          push_neg
          omega
        rfl
      · intro hnv
        split
        case isTrue => rfl
        case isFalse hcond =>
          push_neg at hcond
          exact absurd
            ⟨hlen, hdig, by simp only [tsYear]; omega,
              by simp only [tsMonth]; omega, by simp only [tsMonth]; omega,
              by simp only [tsDay]; omega,
              by simp only [tsDay, tsMonth, tsYear]; omega,
              by simp only [tsHour]; omega, by simp only [tsMinute]; omega,
              by simp only [tsSecond]; omega⟩ hnv

/-- C6.  `parse_date` returns the denoted instant for every string
satisfying the spec contract (14 characters, all digits, valid
calendar/clock fields — `specValidTimestamp`), and returns the
`MalformedTimestamp` error for every other string: in particular a
13-character string or an invalid month/day fails rather than wrapping.
`"20240101000000"` parses to midnight Jan 1 2024. -/
theorem claim_C6 :
    parse_date "20240101000000".data = .ok (toDays 2024 1 1 * 86400) ∧
    (∀ d : List Char, specValidTimestamp d → parse_date d = .ok (specTimestampValue d)) ∧
    (∀ d : List Char, ¬ specValidTimestamp d → parse_date d = .error .malformedTimestamp) :=
  ⟨rfl, fun d => (parse_date_cases d).1, fun d => (parse_date_cases d).2⟩

/-- C6, witness: the valid example, the 13-character truncation and an
invalid month (13) and an invalid day (Feb 30), all through `claim_C6`. -/
theorem claim_C6_witness :
    (¬ specValidTimestamp "2024010100000".data ∧
      parse_date "2024010100000".data = .error .malformedTimestamp) ∧
    (¬ specValidTimestamp "20241301000000".data ∧
      parse_date "20241301000000".data = .error .malformedTimestamp) ∧
    (¬ specValidTimestamp "20240230000000".data ∧
      parse_date "20240230000000".data = .error .malformedTimestamp) ∧
    (specValidTimestamp "20240101000000".data ∧
      parse_date "20240101000000".data = .ok (specTimestampValue "20240101000000".data)) :=
  ⟨⟨by decide, claim_C6.2.2 _ (by decide)⟩,
   ⟨by decide, claim_C6.2.2 _ (by decide)⟩,
   ⟨by decide, claim_C6.2.2 _ (by decide)⟩,
   ⟨by decide, claim_C6.2.1 _ (by decide)⟩⟩

/-! ## The SMOS sort order -/

theorem charListLT_cons (x y : Char) (xs ys : List Char) :
    charListLT (x :: xs) (y :: ys) = true ↔ (x < y ∨ (x = y ∧ charListLT xs ys = true)) := by
  simp only [charListLT]
  by_cases h1 : x < y
  · simp [h1]
  · by_cases h2 : x = y
    · simp [h1, h2]
    · simp [h1, h2]

theorem charListLT_irrefl : ∀ a : List Char, charListLT a a = false := by
  intro a
  induction a with
  | nil => rfl
  | cons c cs ih =>
    simp only [charListLT]
    rw [if_neg (lt_irrefl c)]
    simpa using ih

theorem charListLT_trans : ∀ a b c : List Char,
    charListLT a b = true → charListLT b c = true → charListLT a c = true := by
  intro a
  induction a with
  | nil =>
    intro b c hab hbc
    cases b with
    | nil => simp [charListLT] at hab
    | cons y ys =>
      cases c with
      | nil => simp [charListLT] at hbc
      | cons z zs => rfl
  | cons x xs ih =>
    intro b c hab hbc
    cases b with
    | nil => simp [charListLT] at hab
    | cons y ys =>
      cases c with
      | nil => simp [charListLT] at hbc
      | cons z zs =>
        rw [charListLT_cons] at hab hbc ⊢
        rcases hab with h1 | ⟨h1, h1r⟩ <;> rcases hbc with h2 | ⟨h2, h2r⟩
        · exact Or.inl (lt_trans h1 h2)
        · exact Or.inl (by rw [← h2]; exact h1)
        · exact Or.inl (by rw [h1]; exact h2)
        · exact Or.inr ⟨h1.trans h2, ih ys zs h1r h2r⟩

theorem charListLT_tri : ∀ a b : List Char,
    charListLT a b = true ∨ a = b ∨ charListLT b a = true := by
  intro a
  induction a with
  | nil =>
    intro b
    cases b with
    | nil => exact Or.inr (Or.inl rfl)
    | cons y ys => exact Or.inl rfl
  | cons x xs ih =>
    intro b
    cases b with
    | nil => exact Or.inr (Or.inr rfl)
    | cons y ys =>
      rcases lt_trichotomy x y with h | h | h
      · exact Or.inl ((charListLT_cons x y xs ys).mpr (Or.inl h))
      · rcases ih ys with h2 | h2 | h2
        · exact Or.inl ((charListLT_cons x y xs ys).mpr (Or.inr ⟨h, h2⟩))
        · exact Or.inr (Or.inl (by rw [h, h2]))
        · exact Or.inr (Or.inr ((charListLT_cons y x ys xs).mpr (Or.inr ⟨h.symm, h2⟩)))
      · exact Or.inr (Or.inr ((charListLT_cons y x ys xs).mpr (Or.inl h)))

theorem smosKeyLE_iff (x y : List Char × Int × Int) :
    smosKeyLE x y = true ↔
      (charListLT x.1 y.1 = true ∨
        (x.1 = y.1 ∧ (x.2.1 < y.2.1 ∨ (x.2.1 = y.2.1 ∧ x.2.2 ≤ y.2.2)))) := by
  simp [smosKeyLE, Bool.or_eq_true, Bool.and_eq_true, beq_iff_eq, decide_eq_true_eq]

theorem smosKeyLE_total (x y : List Char × Int × Int) :
    smosKeyLE x y = true ∨ smosKeyLE y x = true := by
  rw [smosKeyLE_iff, smosKeyLE_iff]
  rcases charListLT_tri x.1 y.1 with h | h | h
  · exact Or.inl (Or.inl h)
  · rcases lt_trichotomy x.2.1 y.2.1 with h2 | h2 | h2
    · exact Or.inl (Or.inr ⟨h, Or.inl h2⟩)
    · rcases le_total x.2.2 y.2.2 with h3 | h3
      · exact Or.inl (Or.inr ⟨h, Or.inr ⟨h2, h3⟩⟩)
      · exact Or.inr (Or.inr ⟨h.symm, Or.inr ⟨h2.symm, h3⟩⟩)
    · exact Or.inr (Or.inr ⟨h.symm, Or.inl h2⟩)
  · exact Or.inr (Or.inl h)

theorem smosKeyLE_trans (x y z : List Char × Int × Int)
    (hxy : smosKeyLE x y = true) (hyz : smosKeyLE y z = true) :
    smosKeyLE x z = true := by
  rw [smosKeyLE_iff] at hxy hyz ⊢
  rcases hxy with h1 | ⟨h1, h1r⟩
  · rcases hyz with h2 | ⟨h2, _⟩
    · exact Or.inl (charListLT_trans _ _ _ h1 h2)
    · exact Or.inl (by rw [← h2]; exact h1)
  · rcases hyz with h2 | ⟨h2, h2r⟩
    · exact Or.inl (by rw [h1]; exact h2)
    · refine Or.inr ⟨h1.trans h2, ?_⟩
      rcases h1r with h3 | ⟨h3, h4⟩ <;> rcases h2r with g3 | ⟨g3, g4⟩
      · exact Or.inl (h3.trans g3)
      · exact Or.inl (by omega)
      · exact Or.inl (by omega)
      · exact Or.inr ⟨by omega, by omega⟩

instance : IsTotal (List Char) smosFileLE :=
  ⟨fun a b => smosKeyLE_total (smosKey a) (smosKey b)⟩

instance : IsTrans (List Char) smosFileLE :=
  ⟨fun _ _ _ hab hbc => smosKeyLE_trans _ _ _ hab hbc⟩

theorem smosKeyLT12_irrefl (x : List Char × Int × Int) : ¬ smosKeyLT12 x x := by
  rintro (h | ⟨_, h⟩)
  · rw [charListLT_irrefl] at h
    exact Bool.false_ne_true h
  · exact lt_irrefl _ h

theorem smosKeyLT12_trans (x y z : List Char × Int × Int)
    (hxy : smosKeyLT12 x y) (hyz : smosKeyLT12 y z) : smosKeyLT12 x z := by
  rcases hxy with h | ⟨h, hi⟩ <;> rcases hyz with g | ⟨g, gi⟩
  · exact Or.inl (charListLT_trans _ _ _ h g)
  · exact Or.inl (by rw [← g]; exact h)
  · exact Or.inl (by rw [h]; exact g)
  · exact Or.inr ⟨h.trans g, hi.trans gi⟩

theorem smosKeyLE_strict (x y : List Char × Int × Int) (h : smosKeyLE x y = true) :
    smosKeyLT12 x y ∨ (x.1 = y.1 ∧ x.2.1 = y.2.1) := by
  rw [smosKeyLE_iff] at h
  rcases h with h | ⟨h, hr⟩
  · exact Or.inl (Or.inl h)
  · rcases hr with h2 | ⟨h2, _⟩
    · exact Or.inl (Or.inr ⟨h, h2⟩)
    · exact Or.inr ⟨h, h2⟩

/-! ## Grouping of the sorted SMOS list -/

theorem sorted_grouped : ∀ l : List (List Char), List.Sorted smosFileLE l →
    (∀ x ∈ l, ∀ y ∈ l, smosGroupId x = smosGroupId y ↔
      ((smosKey x).1 = (smosKey y).1 ∧ (smosKey x).2.1 = (smosKey y).2.1)) →
    smosGrouped l := by
  intro l
  induction l with
  | nil => intro _ _; trivial
  | cons a t ih =>
    intro hs hgk
    cases t with
    | nil => trivial
    | cons b t2 =>
      have hpc := List.pairwise_cons.mp hs
      refine ⟨?_, ih hpc.2
        (fun x hx y hy => hgk x (List.mem_cons_of_mem a hx) y (List.mem_cons_of_mem a hy))⟩
      by_cases hab : smosGroupId a = smosGroupId b
      · exact Or.inl hab
      · refine Or.inr ?_
        intro x hx hgx
        have hmema : a ∈ a :: b :: t2 := List.mem_cons_self a _
        have hmemx : x ∈ a :: b :: t2 := List.mem_cons_of_mem a hx
        have hmemb : b ∈ a :: b :: t2 := List.mem_cons_of_mem a (List.mem_cons_self b _)
        have hk_xa := (hgk x hmemx a hmema).mp hgx
        have hk_ab : ¬ ((smosKey a).1 = (smosKey b).1 ∧ (smosKey a).2.1 = (smosKey b).2.1) :=
          fun hk => hab ((hgk a hmema b hmemb).mpr hk)
        have hrab : smosFileLE a b := hpc.1 b (List.mem_cons_self b _)
        cases hx with
        | head => exact hab hgx.symm
        | tail _ hx2 =>
          have hrbx : smosFileLE b x := (List.pairwise_cons.mp hpc.2).1 x hx2
          have s1 := smosKeyLE_strict _ _ hrab
          have s2 := smosKeyLE_strict _ _ hrbx
          rcases s1 with s1 | s1
          · rcases s2 with s2 | s2
            · have hax : smosKeyLT12 (smosKey a) (smosKey x) := smosKeyLT12_trans _ _ _ s1 s2
              apply smosKeyLT12_irrefl (smosKey a)
              rcases hax with h | ⟨h, hi⟩
              · rw [hk_xa.1] at h
                exact Or.inl h
              · rw [hk_xa.1] at h
                rw [hk_xa.2] at hi
                exact Or.inr ⟨h, hi⟩
            · apply smosKeyLT12_irrefl (smosKey a)
              rcases s1 with h | ⟨h, hi⟩
              · rw [s2.1, hk_xa.1] at h
                exact Or.inl h
              · rw [s2.1, hk_xa.1] at h
                rw [s2.2, hk_xa.2] at hi
                exact Or.inr ⟨h, hi⟩
          · exact hk_ab s1

theorem smosGrouped_congr_head (a b : List Char) (h : smosGroupId a = smosGroupId b) :
    ∀ t, smosGrouped (b :: t) → smosGrouped (a :: t) := by
  intro t hg
  cases t with
  | nil => trivial
  | cons c t2 =>
    obtain ⟨hcond, htail⟩ := hg
    refine ⟨?_, htail⟩
    rcases hcond with h1 | h1
    · exact Or.inl (h.trans h1)
    · exact Or.inr (fun x hx => fun hxa => h1 x hx (hxa.trans h))

/-! ## Counting survivors of the generation scan -/

theorem lastGenScan_countP (p : List Char) :
    ∀ (l : List (List Char)), l ≠ [] → ∀ best : List Char, smosGrouped (best :: l) →
      (lastGenScan best l).countP (fun x => smosGroupId x == p) =
        if ∃ x ∈ best :: l, smosGroupId x = p then 1 else 0 := by
  intro l
  induction l with
  | nil => intro h; exact absurd rfl h
  | cons f t ih =>
    intro _ best hg
    cases t with
    | nil =>
      obtain ⟨hcond, _⟩ := hg
      simp only [lastGenScan]
      by_cases hgf : smosGroupId f = smosGroupId best
      · rw [if_pos hgf]
        by_cases hp : smosGroupId f = p
        · rw [if_pos ⟨f, by simp, hp⟩]
          simp [List.countP_cons, hp]
        · rw [if_neg ?_]
          · simp [List.countP_cons, hp]
          · rintro ⟨x, hx, hxp⟩
            rcases List.mem_cons.mp hx with h | h
            · subst h
              exact hp (hgf ▸ hxp)
            · rcases List.mem_singleton.mp h with rfl
              exact hp hxp
      · rw [if_neg hgf]
        have hne : smosGroupId f ≠ smosGroupId best := hgf
        by_cases hp1 : smosGroupId best = p
        · have hp2 : smosGroupId f ≠ p := fun h => hne (h.trans hp1.symm)
          rw [if_pos ⟨best, by simp, hp1⟩]
          simp [List.countP_cons, hp1, hp2]
        · by_cases hp2 : smosGroupId f = p
          · rw [if_pos ⟨f, by simp, hp2⟩]
            simp [List.countP_cons, hp1, hp2]
          · rw [if_neg ?_]
            · simp [List.countP_cons, hp1, hp2]
            · rintro ⟨x, hx, hxp⟩
              rcases List.mem_cons.mp hx with h | h
              · subst h; exact hp1 hxp
              · rcases List.mem_singleton.mp h with rfl
                exact hp2 hxp
    | cons g t2 =>
      obtain ⟨hcond, hgtail⟩ := hg
      simp only [lastGenScan]
      by_cases hgf : smosGroupId f = smosGroupId best
      · rw [if_pos hgf]
        have hiff : (∃ x ∈ f :: g :: t2, smosGroupId x = p) ↔
            (∃ x ∈ best :: f :: g :: t2, smosGroupId x = p) := by
          constructor
          · rintro ⟨x, hx, hxp⟩
            exact ⟨x, List.mem_cons_of_mem best hx, hxp⟩
          · rintro ⟨x, hx, hxp⟩
            rcases List.mem_cons.mp hx with h | h
            · subst h
              exact ⟨f, List.mem_cons_self f _, hgf.trans hxp⟩
            · exact ⟨x, h, hxp⟩
        by_cases hgen : (smosKey best).2.2 ≤ (smosKey f).2.2
        · rw [if_pos hgen, ih (by simp) f hgtail, if_congr hiff rfl rfl]
        · rw [if_neg hgen,
            ih (by simp) best (smosGrouped_congr_head best f hgf.symm (g :: t2) hgtail)]
          have hiff2 : (∃ x ∈ best :: g :: t2, smosGroupId x = p) ↔
              (∃ x ∈ best :: f :: g :: t2, smosGroupId x = p) := by
            constructor
            · rintro ⟨x, hx, hxp⟩
              rcases List.mem_cons.mp hx with h | h
              · exact ⟨x, by rw [h]; exact List.mem_cons_self best _, hxp⟩
              · exact ⟨x, List.mem_cons_of_mem best (List.mem_cons_of_mem f h), hxp⟩
            · rintro ⟨x, hx, hxp⟩
              rcases List.mem_cons.mp hx with h | h
              · exact ⟨x, by rw [h]; exact List.mem_cons_self best _, hxp⟩
              · rcases List.mem_cons.mp h with h2 | h2
                · exact ⟨best, List.mem_cons_self best _, hgf.symm.trans (h2 ▸ hxp)⟩
                · exact ⟨x, List.mem_cons_of_mem best h2, hxp⟩
          rw [if_congr hiff2 rfl rfl]
      · rw [if_neg hgf]
        have h2 : ∀ x ∈ f :: g :: t2, smosGroupId x ≠ smosGroupId best := by
          rcases hcond with h1 | h1
          · exact absurd h1.symm hgf
          · exact h1
        rw [List.countP_cons, ih (by simp) f hgtail]
        by_cases hp : smosGroupId best = p
        · have hnone : ¬ ∃ x ∈ f :: g :: t2, smosGroupId x = p := by
            rintro ⟨x, hx, hxp⟩
            exact h2 x hx (hxp.trans hp.symm)
          have hex : ∃ x ∈ best :: f :: g :: t2, smosGroupId x = p :=
            ⟨best, List.mem_cons_self best _, hp⟩
          rw [if_neg hnone, if_pos hex]
          simp [hp]
        · have hiff3 : (∃ x ∈ f :: g :: t2, smosGroupId x = p) ↔
              (∃ x ∈ best :: f :: g :: t2, smosGroupId x = p) := by
            constructor
            · rintro ⟨x, hx, hxp⟩
              exact ⟨x, List.mem_cons_of_mem best hx, hxp⟩
            · rintro ⟨x, hx, hxp⟩
              rcases List.mem_cons.mp hx with h | h
              · subst h
                exact absurd hxp hp
              · exact ⟨x, h, hxp⟩
          rw [if_congr hiff3 rfl rfl]
          simp [hp]

/-! ## `mapM` over `Except` -/

theorem mapM_except_ok {α β : Type} (g : α → Except ToolsError β) :
    ∀ l : List α, (∀ a ∈ l, (g a).isOk = true) → ∃ ys, l.mapM g = .ok ys := by
  intro l
  induction l with
  | nil => exact fun _ => ⟨[], rfl⟩
  | cons a t ih =>
    intro h
    obtain ⟨ys, hys⟩ := ih (fun x hx => h x (List.mem_cons_of_mem a hx))
    have ha := h a (List.mem_cons_self a t)
    cases hga : g a with
    | error e => rw [hga] at ha; simp [Except.isOk, Except.toBool] at ha
    | ok b =>
      refine ⟨b :: ys, ?_⟩
      rw [List.mapM_cons, hga, hys]
      rfl

/-- C4, counterexample.  The claim promises exactly one surviving path per
identity-group for every input list, but the scan only sees groups as
contiguous runs of the list sorted by `(orbit, date, generation)`; two
groups that differ in a token outside those sort keys can interleave, and
then one group yields two survivors.  Tokens: with basenames
`SM_P_A_7_X_1_S.nc`, `SM_P_A_7_Y_2_S.nc`, `SM_P_A_7_X_3_S.nc` the sort
keys are `(A,7,1)`, `(A,7,2)`, `(A,7,3)` while the groups (all tokens but
the last two) are X, Y, X: the X group survives twice (with generations
1 and 3), never collapsed. -/
theorem claim_C4_counterexample :
    get_last_generation_files
        ["SM_P_A_7_X_1_S.nc".data, "SM_P_A_7_Y_2_S.nc".data, "SM_P_A_7_X_3_S.nc".data]
      = .ok ["SM_P_A_7_X_1_S.nc".data, "SM_P_A_7_Y_2_S.nc".data, "SM_P_A_7_X_3_S.nc".data] ∧
    (["SM_P_A_7_X_1_S.nc".data, "SM_P_A_7_Y_2_S.nc".data, "SM_P_A_7_X_3_S.nc".data]
        : List (List Char)).countP
        (fun x => smosGroupId x == smosGroupId "SM_P_A_7_X_1_S.nc".data) = 2 :=
  ⟨rfl, by decide⟩

/-- C4, amended.  For every nonempty input of well-formed SMOS paths whose
identity groups coincide with their `(orbit, date)` sort-key classes —
which makes groups contiguous in the sorted scan order, as for real SMOS
archives where the tokens ahead of the orbit are fixed —
`get_last_generation_files` succeeds and its output contains exactly one
surviving path per identity-group of the input: never zero and never more
than one. -/
theorem claim_C4_amended (files : List (List Char)) (hne : files ≠ [])
    (hok : ∀ f ∈ files, (extract_smos_sort_keys f).isOk = true)
    (hgk : ∀ x ∈ files, ∀ y ∈ files, smosGroupId x = smosGroupId y ↔
      ((smosKey x).1 = (smosKey y).1 ∧ (smosKey x).2.1 = (smosKey y).2.1)) :
    ∃ out, get_last_generation_files files = .ok out ∧
      ∀ f ∈ files, out.countP (fun x => smosGroupId x == smosGroupId f) = 1 := by
  have hlen : ¬ files.length = 0 := by
    cases files with
    | nil => exact absurd rfl hne
    | cons a t => simp
  obtain ⟨ks, hks⟩ := mapM_except_ok extract_smos_sort_keys files hok
  unfold get_last_generation_files
  rw [if_neg hlen, hks]
  have hperm := List.perm_insertionSort smosFileLE files
  have hsorted := List.sorted_insertionSort smosFileLE files
  cases hs : List.insertionSort smosFileLE files with
  | nil =>
    rw [hs] at hperm
    exact absurd hperm.symm.eq_nil hne
  | cons f0 rest =>
    rw [hs] at hperm hsorted
    refine ⟨_, rfl, ?_⟩
    intro f hf
    have hgk2 : ∀ x ∈ f0 :: rest, ∀ y ∈ f0 :: rest,
        smosGroupId x = smosGroupId y ↔
          ((smosKey x).1 = (smosKey y).1 ∧ (smosKey x).2.1 = (smosKey y).2.1) :=
      fun x hx y hy => hgk x (hperm.mem_iff.mp hx) y (hperm.mem_iff.mp hy)
    have hgrouped := sorted_grouped (f0 :: rest) hsorted hgk2
    have hgrouped2 : smosGrouped (f0 :: f0 :: rest) := ⟨Or.inl rfl, hgrouped⟩
    rw [lastGenScan_countP (smosGroupId f) (f0 :: rest) (by simp) f0 hgrouped2]
    have hex : ∃ x ∈ f0 :: f0 :: rest, smosGroupId x = smosGroupId f :=
      ⟨f, List.mem_cons_of_mem f0 (hperm.mem_iff.mpr hf), rfl⟩
    rw [if_pos hex]

/-- C4, witness for the amended claim on the spec's dedup example: two
generations of one group plus a second group, one survivor each. -/
theorem claim_C4_amended_witness :
    ∃ out, get_last_generation_files
        ["SM_TEST_A_20200101_K_001_T.nc".data, "SM_TEST_A_20200101_K_002_T.nc".data,
         "SM_TEST_A_20200102_K_001_T.nc".data] = .ok out ∧
      ∀ f ∈ (["SM_TEST_A_20200101_K_001_T.nc".data, "SM_TEST_A_20200101_K_002_T.nc".data,
          "SM_TEST_A_20200102_K_001_T.nc".data] : List (List Char)),
        out.countP (fun x => smosGroupId x == smosGroupId f) = 1 :=
  claim_C4_amended _ (by simp) (by decide) (by decide)

/-! ## The copy/remove loop equals a filter -/

theorem removeEraseFold_skip (p : List Char → Bool) (a : List Char) :
    ∀ (cands files : List (List Char)), p a = false →
      removeEraseFold p cands (a :: files) = a :: removeEraseFold p cands files := by
  intro cands
  induction cands with
  | nil => intro files _; rfl
  | cons f cs ih =>
    intro files ha
    unfold removeEraseFold at ih ⊢
    simp only [List.foldl_cons]
    by_cases hf : p f = true
    · rw [hf]
      simp only [if_true]
      have hne : (a == f) = false := by
        rw [beq_eq_false_iff_ne]
        intro heq
        rw [heq, hf] at ha
        simp at ha
      rw [List.erase_cons, hne]
      simp only [Bool.false_eq_true, if_false]
      exact ih (files.erase f) ha
    · rw [Bool.not_eq_true] at hf
      rw [hf]
      simp only [Bool.false_eq_true, if_false]
      exact ih files ha

theorem removeEraseFold_self_eq_filter (p : List Char → Bool) :
    ∀ l : List (List Char), removeEraseFold p l l = l.filter (fun a => !p a) := by
  intro l
  induction l with
  | nil => rfl
  | cons a t ih =>
    unfold removeEraseFold
    simp only [List.foldl_cons]
    by_cases ha : p a = true
    · rw [ha]
      simp only [if_true]
      rw [List.erase_cons_head]
      have : List.foldl (fun fs f => if p f = true then fs.erase f else fs) t t
          = removeEraseFold p t t := rfl
      rw [this, ih, List.filter_cons]
      rw [ha]
      rfl
    · rw [Bool.not_eq_true] at ha
      rw [ha]
      simp only [Bool.false_eq_true, if_false]
      have : List.foldl (fun fs f => if p f = true then fs.erase f else fs) (a :: t) t
          = removeEraseFold p t (a :: t) := rfl
      rw [this, removeEraseFold_skip p a t t ha]
      have : removeEraseFold p t t = t.filter (fun x => !p x) := ih
      rw [this, List.filter_cons, ha]
      rfl

theorem sar_temporal_filter_eq (start_date stop_date : Nat) (files : List (List Char))
    (hok : ∀ f ∈ files, (extract_start_stop_dates_from_sar f).isOk = true) :
    sar_temporal_filter start_date stop_date files =
      .ok (files.filter (sarKeep start_date stop_date)) := by
  obtain ⟨ys, hys⟩ := mapM_except_ok extract_start_stop_dates_from_sar files hok
  unfold sar_temporal_filter
  rw [hys]
  refine congrArg Except.ok ?_
  rw [removeEraseFold_self_eq_filter]
  apply List.filter_congr
  intro f hf
  have hfok := hok f hf
  unfold sarShouldRemove sarKeep
  cases hE : extract_start_stop_dates_from_sar f with
  | error e =>
    rw [hE] at hfok
    simp [Except.isOk, Except.toBool] at hfok
  | ok st =>
    simp only [Bool.not_or, ← decide_not, Nat.not_lt]

/-- C5.  The SAR temporal-filter pass keeps a candidate exactly when its
extracted interval intersects the reference window under closed-interval
semantics (`refStart ≤ stop ∧ start ≤ refStop`, i.e. `sarKeep`): the pass
equals `List.filter sarKeep`, which both gives the iff-membership
(a candidate whose stop equals `refStart` is kept) and preserves the input
order of the survivors (the filtered list is a sublist of the input). -/
theorem claim_C5 (start_date stop_date : Nat) (files : List (List Char))
    (hok : ∀ f ∈ files, (extract_start_stop_dates_from_sar f).isOk = true) :
    sar_temporal_filter start_date stop_date files =
      .ok (files.filter (sarKeep start_date stop_date)) ∧
    (files.filter (sarKeep start_date stop_date)).Sublist files :=
  ⟨sar_temporal_filter_eq start_date stop_date files hok, List.filter_sublist files⟩

/-- C5, witness: the candidate whose stop instant equals the reference
start (closed boundary) survives; a disjoint candidate is dropped; the
survivor keeps its place. -/
theorem claim_C5_witness :
    (sar_temporal_filter (toDays 2023 6 15 * 86400 + 43500) (toDays 2023 6 15 * 86400 + 47200)
        ["RS2_OK_SC50_A_B_20230615_120000_VV".data, "RS2_OK_SC50_A_B_20230101_000000_VV".data]
      = .ok (["RS2_OK_SC50_A_B_20230615_120000_VV".data,
          "RS2_OK_SC50_A_B_20230101_000000_VV".data].filter
          (sarKeep (toDays 2023 6 15 * 86400 + 43500) (toDays 2023 6 15 * 86400 + 47200)))) ∧
    (["RS2_OK_SC50_A_B_20230615_120000_VV".data,
        "RS2_OK_SC50_A_B_20230101_000000_VV".data].filter
        (sarKeep (toDays 2023 6 15 * 86400 + 43500) (toDays 2023 6 15 * 86400 + 47200)))
      = ["RS2_OK_SC50_A_B_20230615_120000_VV".data] :=
  ⟨(claim_C5 _ _ _ (by decide)).1, by rfl⟩

/-! ## The periodic ERA5 resolver -/

theorem era5_loop_nodup (resolver : List Char → Nat → Nat → List Char)
    (resource : List Char) (stop_date step : Nat) :
    ∀ (fuel date : Nat) (files : List (List Char)), files.Nodup →
      (era5_loop resolver resource stop_date step fuel date files).Nodup := by
  intro fuel
  induction fuel with
  | zero => intro date files h; exact h
  | succ n ih =>
    intro date files h
    rw [era5_loop]
    split
    case isTrue hlt =>
      apply ih
      by_cases hmem : resolver resource step date ∈ files
      · rw [if_pos hmem]; exact h
      · rw [if_neg hmem]
        rw [List.nodup_append]
        exact ⟨h, List.nodup_singleton _, by simpa using hmem⟩
    case isFalse => exact h

theorem era5_loop_length_le (resolver : List Char → Nat → Nat → List Char)
    (resource : List Char) (stop_date step : Nat) :
    ∀ (fuel date : Nat) (files : List (List Char)),
      files.length ≤ (era5_loop resolver resource stop_date step fuel date files).length := by
  intro fuel
  induction fuel with
  | zero => intro date files; exact le_refl _
  | succ n ih =>
    intro date files
    rw [era5_loop]
    split
    case isTrue hlt =>
      refine le_trans ?_ (ih (date + step * 60) _)
      by_cases hmem : resolver resource step date ∈ files
      · rw [if_pos hmem]
      · rw [if_neg hmem]
        simp
    case isFalse => exact le_refl _

/-- C10.  `get_nearest_era5_files` starts its cursor at the interval
start, advances by `step` minutes while the cursor is strictly before the
stop (the loop body of `era5_loop`), and returns a duplicate-free list in
first-resolution order; whenever `start < stop` (and the step is positive,
in particular for any step at or below the archive granularity) at least
one file is resolved. -/
theorem claim_C10 (resolver : List Char → Nat → Nat → List Char)
    (start_date stop_date : Nat) (resource : List Char) (step : Nat) :
    (get_nearest_era5_files resolver start_date stop_date resource step).Nodup ∧
    (start_date < stop_date → 0 < step →
      get_nearest_era5_files resolver start_date stop_date resource step ≠ []) := by
  constructor
  · exact era5_loop_nodup resolver resource stop_date step _ _ [] List.nodup_nil
  · intro hlt hstep
    unfold get_nearest_era5_files
    have hfuel : stop_date - start_date = (stop_date - start_date - 1) + 1 := by omega
    rw [hfuel, era5_loop]
    rw [if_pos ⟨hlt, hstep⟩]
    intro hnil
    have hlen := era5_loop_length_le resolver resource stop_date step
      (stop_date - start_date - 1) (start_date + step * 60)
      (if resolver resource step start_date ∈ ([] : List (List Char)) then []
       else [] ++ [resolver resource step start_date])
    rw [hnil] at hlen
    simp at hlen

/-- C10, witness: a 60-minute step over a 3-hour window against a per-day
archive resolves exactly one file — nonempty and duplicate-free. -/
theorem claim_C10_witness :
    (get_nearest_era5_files dailyEraRes (toDays 2023 6 15 * 86400)
        (toDays 2023 6 15 * 86400 + 10800) "era5root".data 60).Nodup ∧
    get_nearest_era5_files dailyEraRes (toDays 2023 6 15 * 86400)
        (toDays 2023 6 15 * 86400 + 10800) "era5root".data 60 ≠ [] ∧
    get_nearest_era5_files dailyEraRes (toDays 2023 6 15 * 86400)
        (toDays 2023 6 15 * 86400 + 10800) "era5root".data 60
      = ["era_5-copernicus__20230615.nc".data] :=
  ⟨(claim_C10 dailyEraRes _ _ _ 60).1,
   (claim_C10 dailyEraRes _ _ _ 60).2 (by decide) (by decide),
   by rfl⟩

/-- C8.  For every non-`.nc` filename whose uppercased basename starts with
`RCM` or `RS2` (and not `S1`), interval extraction takes the
underscore-separated tokens at 0-based indices 5 (date) and 6 (time),
parses their concatenation as the start instant, and returns
`stop = start + 5 minutes` (300 s) exactly; and every non-`.nc` basename
starting with none of `S1`, `RCM`, `RS2` fails with the spec's
`UnrecognizedConvention` error. -/
theorem claim_C8 :
    (∀ (p : List Char) (t : Nat),
      List.isSuffixOf ".nc".data (baseName p) = false →
      List.isPrefixOf "S1".data (upperStr (baseName p)) = false →
      (List.isPrefixOf "RCM".data (upperStr (baseName p))
        || List.isPrefixOf "RS2".data (upperStr (baseName p))) = true →
      6 < (splitOnChar '_' (upperStr (baseName p))).length →
      parse_date ((splitOnChar '_' (upperStr (baseName p))).getD 5 []
        ++ (splitOnChar '_' (upperStr (baseName p))).getD 6 []) = .ok t →
      extract_start_stop_dates_from_sar p = .ok (t, t + 300)) ∧
    (∀ q : List Char,
      List.isSuffixOf ".nc".data (baseName q) = false →
      List.isPrefixOf "S1".data (upperStr (baseName q)) = false →
      List.isPrefixOf "RCM".data (upperStr (baseName q)) = false →
      List.isPrefixOf "RS2".data (upperStr (baseName q)) = false →
      extract_start_stop_dates_from_sar q = .error .unrecognizedConvention) := by
  constructor
  · intro p t h1 h2 h3 h4 h5
    unfold extract_start_stop_dates_from_sar
    dsimp only
    rw [h1]
    simp only [Bool.false_eq_true, if_false]
    rw [h2]
    simp only [Bool.false_eq_true, if_false]
    rw [h3]
    simp only [if_true]
    rw [if_neg (by omega)]
    rw [h5]
    rfl
  · intro q g1 g2 g3 g4
    unfold extract_start_stop_dates_from_sar
    dsimp only
    rw [g1]
    simp only [Bool.false_eq_true, if_false]
    rw [g2]
    simp only [Bool.false_eq_true, if_false]
    rw [g3, g4]
    simp only [Bool.or_false, Bool.false_eq_true, if_false]

/-- C8, witness: the spec's RS2 example tokens `20230615` / `120000`
yield start 2023-06-15T12:00:00 and stop exactly 5 minutes later; an
unrecognized basename fails with `UnrecognizedConvention`. -/
theorem claim_C8_witness :
    extract_start_stop_dates_from_sar "RS2_OK_SC50_A_B_20230615_120000_VV".data
      = .ok (toDays 2023 6 15 * 86400 + 43200, toDays 2023 6 15 * 86400 + 43200 + 300) ∧
    extract_start_stop_dates_from_sar "FOO_BAR".data = .error .unrecognizedConvention :=
  ⟨claim_C8.1 _ _ (by decide) (by decide) (by decide) (by decide) (by rfl),
   claim_C8.2 _ (by decide) (by decide) (by decide) (by decide)⟩

/-- C9, counterexample.  The claim says duplicate paths matched by two
glob patterns are eliminated from the discovery result.  The orchestration
never applies `unique` (the source defines it but does not call it here):
under a discovery oracle that returns the same RS2 path for both the L1
and the L2 day patterns, the returned list contains that path twice, even
though `unique` of it would be the singleton. -/
theorem claim_C9_counterexample :
    get_all_comparison_files dupGlob trivHyOr trivEraRes
        (toDays 2023 6 15 * 86400) (toDays 2023 6 15 * 86400 + 50000) "RS2".data
      = .ok [rs2SamplePath, rs2SamplePath] ∧
    unique [rs2SamplePath, rs2SamplePath] = [rs2SamplePath] ∧
    [rs2SamplePath, rs2SamplePath].count rs2SamplePath = 2 :=
  ⟨rfl, rfl, rfl⟩

/-- C9, amended.  The orchestration performs no duplicate elimination of
its own: duplicates returned by the discovery collaborator survive into
the result (see the counterexample).  The returned candidate list for a
SAR sensor (`S1`, `RS2`, `RCM`) contains no repeated path provided the
discovery collaborator's combined matches over the day patterns are
duplicate-free — which the per-day directory layout of the real archives
guarantees, since distinct day windows glob disjoint directories. -/
theorem claim_C9_amended (globFn : List Char → List (List Char))
    (hyOr : List Char → Nat × Nat) (eraRes : List Char → Nat → Nat → List Char)
    (start_date stop_date : Nat) (db_name : List Char)
    (hdb : db_name = "S1".data ∨ db_name = "RS2".data ∨ db_name = "RCM".data)
    (hnd : ((sarPatterns db_name start_date stop_date).flatMap globFn).Nodup)
    (hok : ∀ f ∈ (sarPatterns db_name start_date stop_date).flatMap globFn,
      (extract_start_stop_dates_from_sar f).isOk = true) :
    ∃ out, get_all_comparison_files globFn hyOr eraRes start_date stop_date db_name
        = .ok out ∧ out.Nodup := by
  rcases hdb with rfl | rfl | rfl
  · unfold get_all_comparison_files
    rw [show get_acquisition_root_paths "S1".data
      = .ok (RootPaths.leveled s1_l1_root_paths s1_l2_root_paths) from rfl]
    dsimp only
    rw [if_neg (by decide), if_neg (by decide), if_neg (by decide)]
    rw [sar_temporal_filter_eq _ _ _ hok]
    exact ⟨_, rfl, hnd.filter _⟩
  · unfold get_all_comparison_files
    rw [show get_acquisition_root_paths "RS2".data
      = .ok (RootPaths.leveled rs2_l1_root_paths rs2_l2_root_paths) from rfl]
    dsimp only
    rw [if_neg (by decide), if_neg (by decide), if_neg (by decide)]
    rw [sar_temporal_filter_eq _ _ _ hok]
    exact ⟨_, rfl, hnd.filter _⟩
  · unfold get_all_comparison_files
    rw [show get_acquisition_root_paths "RCM".data
      = .ok (RootPaths.leveled rcm_l1_root_paths []) from rfl]
    dsimp only
    rw [if_neg (by decide), if_neg (by decide), if_neg (by decide)]
    rw [sar_temporal_filter_eq _ _ _ hok]
    exact ⟨_, rfl, hnd.filter _⟩

/-- C9, witness for the amended claim with a discovery oracle returning
no matches (trivially duplicate-free discovery). -/
theorem claim_C9_amended_witness :
    ∃ out, get_all_comparison_files emptyGlob trivHyOr trivEraRes 0 0 "RS2".data
        = .ok out ∧ out.Nodup :=
  claim_C9_amended emptyGlob trivHyOr trivEraRes 0 0 "RS2".data
    (Or.inr (Or.inl rfl)) (by decide) (by decide)
